import Mathlib

/-!
Verification development for the polyglot translation CLI
(src/polyglot/managers.py, src/polyglot/__main__.py).

The Python sources are shallowly embedded as executable Lean functions.
Stateful counters (`completion_count`, `not_translated_count`, progress-bar
updates) are threaded explicitly through a `TrState` record; the recursive
JSON walk, which can diverge in the source, is embedded with a fuel
parameter (`none` result = the walk has not terminated within the given
fuel; divergence is `none` for every fuel).
-/

namespace Polyglot

/-- Modelled from the spec: the DeepL client's `translate` operation
(`deepl_request.DeeplRequest.translate`, whose implementation is outside the
modelled sources) takes a unit of text and returns either translated text or
a failure marker (`None`), never raising past this boundary. -/
def Translator : Type := String → Option String

/-- A JSON value as handled by `JSONManager`: a non-mapping (leaf) value to
be translated, or a nested string-keyed mapping.  Python dicts preserve
insertion order, so mappings are association lists. -/
inductive Json where
  | str : String → Json
  | obj : List (String × Json) → Json
deriving Repr

/-- Mutable counters of `DictionaryManager` plus an instrumentation counter
for the number of `progress_bar.update` calls performed. -/
structure TrState where
  notTranslatedCount : Nat
  completionCount : Nat
  progressUpdates : Nat
deriving Repr, DecidableEq

/-- Counters at the start of a run (class attributes initialised to 0). -/
def initState : TrState := { notTranslatedCount := 0, completionCount := 0, progressUpdates := 0 }

/-- Python truthiness of a `str | None` value: `None` and the empty string
are falsy. -/
def optFalsy : Option String → Bool
  | none => true
  | some s => s == ""

/-- DictionaryManager.translate_and_handle (managers.py lines 94-98):
translate the entry; on a falsy result increment `not_translated_count` and
return the original entry, else return the translation. -/
def translateAndHandle (tr : Translator) (entry : String) (st : TrState) : String × TrState :=
  let translation : Option String := tr entry
  if optFalsy translation then
    (entry, { st with notTranslatedCount := st.notTranslatedCount + 1 })
  else
    (translation.getD entry, st)

/-- The leaf bookkeeping of JSONManager.translate_content lines 130-131 and
POManager.translate_content lines 160-161: `completion_count += 1` followed
by one `progress_bar.update` call. -/
def bumpProgress (st : TrState) : TrState :=
  { st with completionCount := st.completionCount + 1, progressUpdates := st.progressUpdates + 1 }

/-- JSONManager.get_number_of_translations (managers.py lines 103-112),
fuel-indexed.  The walk over the items of `d` counts 1 per non-mapping value
and recurses into mapping values; the source's falsy-argument default
(`if not dictionary: dictionary = self.content`) is rendered at the call
site: an empty mapping value is replaced by the full top-level content
`root`.  Fuel is consumed at every step; `none` means the recursion did not
finish within the fuel. -/
def countItems (root : List (String × Json)) : Nat → List (String × Json) → Option Nat
  | 0, _ => none
  | _ + 1, [] => some 0
  | f + 1, (_, Json.str _) :: rest =>
    match countItems root f rest with
    | none => none
    | some r => some (r + 1)
  | f + 1, (_, Json.obj m) :: rest =>
    match countItems root f (if m.isEmpty then root else m) with
    | none => none
    | some n =>
      match countItems root f rest with
      | none => none
      | some r => some (n + r)

/-- The top-level call `self.get_number_of_translations()` made by
`get_progress_bar` (line 82): the `None` argument is falsy, so the walk
starts at `self.content`. -/
def getNumberOfTranslations (root : List (String × Json)) (fuel : Nat) : Option Nat :=
  countItems root fuel root

/-- JSONManager.translate_content (managers.py lines 118-131), fuel-indexed,
with the same call-site rendering of the falsy-argument default as
`countItems`.  Returns the rewritten mapping together with the updated
counters; `none` means the recursion did not finish within the fuel. -/
def translateItems (tr : Translator) (root : List (String × Json)) :
    Nat → List (String × Json) → TrState → Option (List (String × Json) × TrState)
  | 0, _, _ => none
  | _ + 1, [], st => some ([], st)
  | f + 1, (k, Json.str s) :: rest, st =>
    let p := translateAndHandle tr s st
    match translateItems tr root f rest (bumpProgress p.2) with
    | none => none
    | some (rest', st₂) => some ((k, Json.str p.1) :: rest', st₂)
  | f + 1, (k, Json.obj m) :: rest, st =>
    match translateItems tr root f (if m.isEmpty then root else m) st with
    | none => none
    | some (m', st₁) =>
      match translateItems tr root f rest st₁ with
      | none => none
      | some (rest', st₂) => some ((k, Json.obj m') :: rest', st₂)

/-- The top-level call `self.translate_content()` (line 77): the `None`
argument is falsy, so the walk starts at `self.content`. -/
def translateContent (tr : Translator) (root : List (String × Json)) (fuel : Nat)
    (st : TrState) : Option (List (String × Json) × TrState) :=
  translateItems tr root fuel root st

/-- Whether a mapping contains, at any depth, a key whose value is an empty
JSON object (the values on which the source's falsy-argument default fires
during the walk). -/
def hasEmptyEntry : List (String × Json) → Bool
  | [] => false
  | (_, Json.str _) :: rest => hasEmptyEntry rest
  | (_, Json.obj m) :: rest => m.isEmpty || hasEmptyEntry m || hasEmptyEntry rest

mutual

/-- The key-and-nesting skeleton of a JSON value: every leaf is replaced by
a fixed placeholder, mappings are kept. -/
def Json.shape : Json → Json
  | .str _ => .str ""
  | .obj l => .obj (shapeEntries l)

/-- The key-and-nesting skeleton of a mapping, entry by entry. -/
def shapeEntries : List (String × Json) → List (String × Json)
  | [] => []
  | (k, v) :: rest => (k, v.shape) :: shapeEntries rest

end

/-- Lower-case hexadecimal digit, as produced by CPython's json encoder. -/
def hexDigitChar (n : Nat) : Char :=
  if n < 10 then Char.ofNat (48 + n) else Char.ofNat (87 + n)

/-- Four-digit hexadecimal rendering used in \uXXXX escapes. -/
def hex4 (n : Nat) : List Char :=
  [hexDigitChar (n / 4096 % 16), hexDigitChar (n / 256 % 16),
   hexDigitChar (n / 16 % 16), hexDigitChar (n % 16)]

/-- Character escaping of CPython's `json.dumps` with the default
`ensure_ascii=True`: short escapes for the usual control characters, \uXXXX
(with surrogate pairs) for other control or non-ASCII characters. -/
def jsonEscapeChar (c : Char) : List Char :=
  if c = '"' then ['\\', '"']
  else if c = '\\' then ['\\', '\\']
  else if c.toNat = 10 then ['\\', 'n']
  else if c.toNat = 13 then ['\\', 'r']
  else if c.toNat = 9 then ['\\', 't']
  else if c.toNat = 8 then ['\\', 'b']
  else if c.toNat = 12 then ['\\', 'f']
  else if c.toNat < 32 ∨ c.toNat > 126 then
    if c.toNat < 65536 then '\\' :: 'u' :: hex4 c.toNat
    else
      let n := c.toNat - 65536
      ('\\' :: 'u' :: hex4 (55296 + n / 1024)) ++ ('\\' :: 'u' :: hex4 (56320 + n % 1024))
  else [c]

/-- JSON string literal encoding. -/
def jsonEncodeString (s : String) : String :=
  String.mk ('"' :: s.data.foldr (fun c acc => jsonEscapeChar c ++ acc) ['"'])

/-- Two spaces of indentation per nesting level (`json.dumps(..., indent=2)`). -/
def indentStr (d : Nat) : String :=
  String.mk (List.replicate (2 * d) ' ')

mutual

/-- Serialisation of a JSON value at nesting depth `d`, following
`json.dumps(content, indent=2)`: an empty object prints as braces, a
non-empty object opens a brace, prints each entry on its own line indented
two further spaces, then closes the brace at the current indentation. -/
def jsonDumpsValue : Nat → Json → String
  | _, Json.str s => jsonEncodeString s
  | _, Json.obj [] => "\x7b\x7d"
  | d, Json.obj ((k, v) :: rest) =>
    "\x7b\n" ++ indentStr (d + 1) ++ jsonEncodeString k ++ ": " ++ jsonDumpsValue (d + 1) v
      ++ jsonDumpsEntries (d + 1) rest ++ "\n" ++ indentStr d ++ "\x7d"

/-- Remaining entries of an object being serialised at depth `d`. -/
def jsonDumpsEntries : Nat → List (String × Json) → String
  | _, [] => ""
  | d, (k, v) :: rest =>
    ",\n" ++ indentStr d ++ jsonEncodeString k ++ ": " ++ jsonDumpsValue d v
      ++ jsonDumpsEntries d rest

end

/-- The string written by JSONManager.make_translated_files (line 135):
`json.dumps(self.content, indent=2)`. -/
def jsonDumps (root : List (String × Json)) : String :=
  jsonDumpsValue 0 (Json.obj root)

/-- TextManager.translate_content (line 59): the whole content is replaced
by the client's answer, which may be the failure marker. -/
def textTranslateContent (tr : Translator) (content : String) : Option String :=
  tr content

/-- Python truthiness of the `content` field after translation: `None` and
the empty string are falsy. -/
def strTruthy : Option String → Bool
  | none => false
  | some s => !(s == "")

/-- TextManager.translate_source_file after loading (lines 46-48): translate
the content, and only when it is truthy write it to the target path.
Returns the list of (path, content) files written. -/
def textTranslateSourceFile (tr : Translator) (content : String) (path : String) :
    List (String × String) :=
  let c := textTranslateContent tr content
  if strTruthy c then [(path, c.getD "")] else []

/-- Modelled from the spec: an entry of a gettext PO catalog as exposed by
the external `polib` library — a message id, a message string, and a list
of source-code occurrences. -/
structure POEntry where
  msgid : String
  msgstr : String
  occurrences : List (String × String)
deriving Repr, DecidableEq

/-- The value stored by POManager.load_source_content for one entry: the
`msgstr`/`occurrences` record. -/
structure POVal where
  msgstr : String
  occurrences : List (String × String)
deriving Repr, DecidableEq

/-- The record built at managers.py lines 152-155: the message string
defaults to the message id when the entry's `msgstr` is empty. -/
def loadEntry (e : POEntry) : POVal :=
  { msgstr := if e.msgstr = "" then e.msgid else e.msgstr,
    occurrences := e.occurrences }

/-- Python dict assignment `content[k] = v` on an insertion-ordered dict: an
existing key keeps its position and gets the new value, a new key is
appended. -/
def dictInsert (k : String) (v : POVal) : List (String × POVal) → List (String × POVal)
  | [] => [(k, v)]
  | (k', v') :: rest => if k' = k then (k', v) :: rest else (k', v') :: dictInsert k v rest

/-- POManager.load_source_content (lines 148-155): fold the catalog entries
into the `content` dict, keyed by message id. -/
def loadSourceContent : List POEntry → List (String × POVal) → List (String × POVal)
  | [], content => content
  | e :: rest, content => loadSourceContent rest (dictInsert e.msgid (loadEntry e) content)

/-- POManager.translate_content (lines 157-161): for every entry, submit its
stored message string to `translate_and_handle`, store the result back, and
advance the progress counters.  The third component records, in order, the
strings submitted for translation. -/
def poTranslateContent (tr : Translator) :
    List (String × POVal) → TrState → List (String × POVal) × TrState × List String
  | [], st => ([], st, [])
  | (k, v) :: rest, st =>
    let p := translateAndHandle tr v.msgstr st
    let r := poTranslateContent tr rest (bumpProgress p.2)
    ((k, { v with msgstr := p.1 }) :: r.1, r.2.1, v.msgstr :: r.2.2)

/-- POManager.make_translated_files (lines 163-179), entry construction: a
fresh catalog whose entries carry the content keys as message ids and the
stored message strings and occurrences. -/
def poMakeTranslatedFiles (content : List (String × POVal)) : List POEntry :=
  content.map fun kv => { msgid := kv.1, msgstr := kv.2.msgstr, occurrences := kv.2.occurrences }

/-- The PO pipeline on an in-memory catalog: load, translate, rebuild. -/
def poPipeline (tr : Translator) (entries : List POEntry) : List POEntry :=
  let content := loadSourceContent entries []
  let t := poTranslateContent tr content initState
  poMakeTranslatedFiles t.1

/-- The ambient filesystem facts consulted by the managers: `os.path.exists`,
`os.path.isdir` and `os.getcwd`. -/
structure FileSystem where
  pathExists : String → Bool
  isDir : String → Bool
  cwd : String

/-- Index of the last occurrence of `c`, accumulator form. -/
def lastIndexOfAux (c : Char) : List Char → Nat → Option Nat → Option Nat
  | [], _, acc => acc
  | x :: rest, i, acc => lastIndexOfAux c rest (i + 1) (if x = c then some i else acc)

/-- Index of the last occurrence of `c` in the character list. -/
def lastIndexOf (c : Char) (l : List Char) : Option Nat :=
  lastIndexOfAux c l 0 none

/-- Python `str.rfind`: index of the last occurrence, `-1` when absent. -/
def rfindIdx (c : Char) (l : List Char) : Int :=
  match lastIndexOf c l with
  | none => -1
  | some i => Int.ofNat i

/-- Whether some character in positions `[start, stop)` differs from a dot:
the loop of CPython's `posixpath.splitext` that skips the leading dots of
the basename. -/
def hasNonDot (l : List Char) (start stop : Nat) : Bool :=
  ((l.drop start).take (stop - start)).any fun c => c != '.'

/-- Extension part of CPython's `os.path.splitext` (posix rules), used by
`Manager.extension` (lines 21-24) and the dispatch in `__main__` (line 29):
the suffix from the last dot after the last slash, unless the basename up to
that dot is all dots. -/
def splitextExtension (p : String) : String :=
  let l := p.data
  let sepIndex := rfindIdx '/' l
  let dotIndex := rfindIdx '.' l
  if dotIndex > sepIndex ∧ hasNonDot l (sepIndex + 1).toNat dotIndex.toNat then
    String.mk (l.drop dotIndex.toNat)
  else ""

/-- Manager.__init__ lines 18-19: keep the given output directory when it is
non-empty and an existing directory, otherwise fall back to the current
working directory. -/
def resolveOutputDirectory (fs : FileSystem) (outputDirectory : String) : String :=
  if outputDirectory ≠ "" ∧ fs.isDir outputDirectory = true then outputDirectory else fs.cwd

/-- The fields of a constructed Manager that the claims consult. -/
structure ManagerState where
  sourceFile : String
  targetLang : String
  outputDirectory : String
deriving Repr, DecidableEq

/-- How a modelled run ends: `exited c` is `os._exit(c)`, `crashed` is an
uncaught exception propagating out, `diverged` models a recursion that never
returns, `ok` carries the run's products. -/
inductive Outcome (α : Type) where
  | exited : Nat → Outcome α
  | crashed : Outcome α
  | diverged : Outcome α
  | ok : α → Outcome α
deriving Repr

/-- Manager.__init__ (lines 14-19) with check_source_file (lines 30-33):
when the source file does not exist the process exits immediately with
`os._exit(0)`, before any loading or translation; otherwise the manager
state is built, resolving the output directory. -/
def managerInit (fs : FileSystem) (targetLang sourceFile outputDirectory : String) :
    Outcome ManagerState :=
  if fs.pathExists sourceFile then
    Outcome.ok
      { sourceFile := sourceFile, targetLang := targetLang,
        outputDirectory := resolveOutputDirectory fs outputDirectory }
  else Outcome.exited 0

/-- Manager.extension (lines 21-24). -/
def managerExtension (m : ManagerState) : String :=
  splitextExtension m.sourceFile

/-- Manager.target_file (lines 26-28):
`{output_directory}/{target_lang.lower()}{extension}`. -/
def targetFile (m : ManagerState) : String :=
  m.outputDirectory ++ "/" ++ m.targetLang.toLower ++ managerExtension m

/-- TextManager.translate_source_file as a whole run: construct the manager,
load the file (a read failure is caught and exits with `os._exit(0)`),
translate, and write only truthy content.  `readFile` returns `none` when
reading raises. -/
def textRun (fs : FileSystem) (tr : Translator) (readFile : String → Option String)
    (targetLang sourceFile outputDirectory : String) : Outcome (List (String × String)) :=
  match managerInit fs targetLang sourceFile outputDirectory with
  | Outcome.exited c => Outcome.exited c
  | Outcome.crashed => Outcome.crashed
  | Outcome.diverged => Outcome.diverged
  | Outcome.ok m =>
    match readFile sourceFile with
    | none => Outcome.exited 0
    | some content => Outcome.ok (textTranslateSourceFile tr content (targetFile m))

/-- JSONManager run: construct the manager, parse the source (`json.load`
failures are uncaught, hence `crashed`), size the progress bar by the
up-front leaf count, translate, and write the 2-space-indented dump.  The
fuel bounds the recursive walks; exceeding it is `diverged`. -/
def jsonRun (fs : FileSystem) (tr : Translator)
    (parse : String → Option (List (String × Json)))
    (targetLang sourceFile outputDirectory : String) (fuel : Nat) :
    Outcome (List (String × String)) :=
  match managerInit fs targetLang sourceFile outputDirectory with
  | Outcome.exited c => Outcome.exited c
  | Outcome.crashed => Outcome.crashed
  | Outcome.diverged => Outcome.diverged
  | Outcome.ok m =>
    match parse sourceFile with
    | none => Outcome.crashed
    | some root =>
      match getNumberOfTranslations root fuel with
      | none => Outcome.diverged
      | some _ =>
        match translateContent tr root fuel initState with
        | none => Outcome.diverged
        | some (res, _) => Outcome.ok [(targetFile m, jsonDumps res)]

/-- POManager run: construct the manager, parse the catalog (`polib.pofile`
failures are uncaught, hence `crashed`), load, translate every entry, and
write both the catalog and its compiled form.  Returns the two output paths
and the rebuilt entries. -/
def poRun (fs : FileSystem) (tr : Translator)
    (parseCatalog : String → Option (List POEntry))
    (targetLang sourceFile outputDirectory : String) :
    Outcome (List String × List POEntry) :=
  match managerInit fs targetLang sourceFile outputDirectory with
  | Outcome.exited c => Outcome.exited c
  | Outcome.crashed => Outcome.crashed
  | Outcome.diverged => Outcome.diverged
  | Outcome.ok m =>
    match parseCatalog sourceFile with
    | none => Outcome.crashed
    | some entries =>
      let content := loadSourceContent entries []
      let t := poTranslateContent tr content initState
      Outcome.ok
        ([targetFile m, m.outputDirectory ++ "/" ++ m.targetLang.toLower ++ ".mo"],
         poMakeTranslatedFiles t.1)

/-- Names defined at top level of src/polyglot/managers.py. -/
def managersModuleExports : List String :=
  ["Manager", "TextManager", "DictionaryManager", "JSONManager", "POManager", "DocumentManager"]

/-- Names that src/polyglot/__main__.py line 8 imports from polyglot.managers. -/
def mainManagerImports : List String :=
  ["BaseManager", "JSONManager", "POManager"]

/-- The dispatch of translate_or_print_data (__main__.py lines 29-39): split
the source file's extension and pick the manager class by name. -/
def selectManagerClass (sourceFile : String) : String :=
  let ext := splitextExtension sourceFile
  if ext = ".json" then "JSONManager"
  else if ext = ".po" then "POManager"
  else "BaseManager"

/-- The guard of translate_or_print_data (__main__.py lines 18-20): a falsy
action prints an error and calls `os._exit(0)`. -/
def mainCheckAction (action : String) : Outcome Unit :=
  if action = "" then Outcome.exited 0 else Outcome.ok ()

/-- A concrete always-succeeding translator used to instantiate theorems. -/
def wTr : Translator := fun s => some ("T" ++ s)

/-- A concrete always-failing translator used to instantiate theorems. -/
def wTrFail : Translator := fun _ => none

/-- A concrete two-leaf JSON document used to instantiate theorems. -/
def wRoot : List (String × Json) :=
  [("a", Json.str "x"), ("b", Json.obj [("c", Json.str "y")])]

/-- The translation of `wRoot` under `wTr`. -/
def wRes : List (String × Json) :=
  [("a", Json.str "Tx"), ("b", Json.obj [("c", Json.str "Ty")])]

/-- The counters after translating `wRoot` under `wTr`. -/
def wSt : TrState := { notTranslatedCount := 0, completionCount := 2, progressUpdates := 2 }

/-- A concrete JSON document containing an empty-object value. -/
def wEmptyRoot : List (String × Json) := [("a", Json.str "x"), ("b", Json.obj [])]

/-- A filesystem in which every path exists and no directory check passes. -/
def wFs : FileSystem := { pathExists := fun _ => true, isDir := fun _ => false, cwd := "/cwd" }

/-- A filesystem in which no path exists. -/
def wFsMissing : FileSystem :=
  { pathExists := fun _ => false, isDir := fun _ => false, cwd := "/cwd" }

/-- A concrete PO entry with an empty message string. -/
def wEntry : POEntry := { msgid := "Hello", msgstr := "", occurrences := [("file.py", "3")] }

end Polyglot

namespace Polyglot

theorem translateAndHandle_progressUpdates (tr : Translator) (s : String) (st : TrState) :
    ((translateAndHandle tr s st).2).progressUpdates = st.progressUpdates := by
  simp only [translateAndHandle]
  cases h : optFalsy (tr s) <;> simp [h]

theorem translateAndHandle_completionCount (tr : Translator) (s : String) (st : TrState) :
    ((translateAndHandle tr s st).2).completionCount = st.completionCount := by
  simp only [translateAndHandle]
  cases h : optFalsy (tr s) <;> simp [h]

theorem countItems_mono (root : List (String × Json)) :
    ∀ f g d n, countItems root f d = some n → f ≤ g → countItems root g d = some n := by
  intro f
  induction f with
  | zero =>
    intro g d n h _
    simp [countItems] at h
  | succ f ih =>
    intro g d n h hle
    obtain ⟨g, rfl⟩ : ∃ g', g = g' + 1 := ⟨g - 1, by omega⟩
    have hle' : f ≤ g := by omega
    cases d with
    | nil =>
      simpa [countItems] using h
    | cons kv rest =>
      obtain ⟨k, v⟩ := kv
      cases v with
      | str s =>
        simp only [countItems] at h ⊢
        cases hrest : countItems root f rest with
        | none => rw [hrest] at h; simp at h
        | some r =>
          rw [hrest] at h
          rw [ih g rest r hrest hle']
          exact h
      | obj m =>
        simp only [countItems] at h ⊢
        cases hm : countItems root f (if m.isEmpty then root else m) with
        | none => rw [hm] at h; simp at h
        | some nm =>
          rw [hm] at h
          cases hrest : countItems root f rest with
          | none => rw [hrest] at h; simp at h
          | some r =>
            rw [hrest] at h
            rw [ih g _ nm hm hle', ih g rest r hrest hle']
            exact h

end Polyglot

namespace Polyglot

theorem countItems_some_translateItems (tr : Translator) (root : List (String × Json)) :
    ∀ f d st n, countItems root f d = some n →
      ∃ res st', translateItems tr root f d st = some (res, st') ∧
        st'.progressUpdates = st.progressUpdates + n ∧
        st'.completionCount = st.completionCount + n := by
  intro f
  induction f with
  | zero =>
    intro d st n h
    simp [countItems] at h
  | succ f ih =>
    intro d st n h
    cases d with
    | nil =>
      simp only [countItems, Option.some.injEq] at h
      exact ⟨[], st, by simp [translateItems], by omega, by omega⟩
    | cons kv rest =>
      obtain ⟨k, v⟩ := kv
      cases v with
      | str s =>
        simp only [countItems] at h
        cases hrest : countItems root f rest with
        | none => rw [hrest] at h; simp at h
        | some r =>
          rw [hrest] at h
          simp only [Option.some.injEq] at h
          obtain ⟨res, st', hts, hup, hcomp⟩ :=
            ih rest (bumpProgress (translateAndHandle tr s st).2) r hrest
          refine ⟨(k, Json.str (translateAndHandle tr s st).1) :: res, st', ?_, ?_, ?_⟩
          · simp only [translateItems]
            rw [hts]
          · have hb : (bumpProgress (translateAndHandle tr s st).2).progressUpdates =
                st.progressUpdates + 1 := by
              simp [bumpProgress, translateAndHandle_progressUpdates]
            omega
          · have hb : (bumpProgress (translateAndHandle tr s st).2).completionCount =
                st.completionCount + 1 := by
              simp [bumpProgress, translateAndHandle_completionCount]
            omega
      | obj m =>
        simp only [countItems] at h
        cases hm : countItems root f (if m.isEmpty then root else m) with
        | none => rw [hm] at h; simp at h
        | some nm =>
          rw [hm] at h
          cases hrest : countItems root f rest with
          | none => rw [hrest] at h; simp at h
          | some r =>
            rw [hrest] at h
            simp only [Option.some.injEq] at h
            obtain ⟨m', st₁, htm, hup₁, hcomp₁⟩ := ih (if m.isEmpty then root else m) st nm hm
            obtain ⟨rest', st₂, htr, hup₂, hcomp₂⟩ := ih rest st₁ r hrest
            refine ⟨(k, Json.obj m') :: rest', st₂, ?_, by omega, by omega⟩
            simp only [translateItems]
            rw [htm]
            dsimp only
            rw [htr]

theorem countItems_none_translateItems (tr : Translator) (root : List (String × Json)) :
    ∀ f d st, countItems root f d = none → translateItems tr root f d st = none := by
  intro f
  induction f with
  | zero =>
    intro d st _
    simp [translateItems]
  | succ f ih =>
    intro d st h
    cases d with
    | nil => simp [countItems] at h
    | cons kv rest =>
      obtain ⟨k, v⟩ := kv
      cases v with
      | str s =>
        simp only [countItems] at h
        cases hrest : countItems root f rest with
        | none =>
          simp only [translateItems]
          rw [ih rest _ hrest]
        | some r => rw [hrest] at h; simp at h
      | obj m =>
        simp only [countItems] at h
        cases hm : countItems root f (if m.isEmpty then root else m) with
        | none =>
          simp only [translateItems]
          rw [ih _ st hm]
        | some nm =>
          rw [hm] at h
          cases hrest : countItems root f rest with
          | none =>
            obtain ⟨m', st₁, htm, _, _⟩ :=
              countItems_some_translateItems tr root f (if m.isEmpty then root else m) st nm hm
            simp only [translateItems]
            rw [htm]
            dsimp only
            rw [ih rest st₁ hrest]
          | some r => rw [hrest] at h; simp at h

theorem translateItems_isSome_eq_countItems (tr : Translator) (root : List (String × Json))
    (f : Nat) (d : List (String × Json)) (st : TrState) :
    (translateItems tr root f d st).isSome = (countItems root f d).isSome := by
  cases h : countItems root f d with
  | none =>
    rw [countItems_none_translateItems tr root f d st h]
    rfl
  | some n =>
    obtain ⟨res, st', hts, _, _⟩ := countItems_some_translateItems tr root f d st n h
    rw [hts]
    rfl

end Polyglot

namespace Polyglot

theorem countItems_none_of_hasEmpty (root : List (String × Json))
    (hroot : hasEmptyEntry root = true) :
    ∀ f d, hasEmptyEntry d = true → countItems root f d = none := by
  intro f
  induction f with
  | zero =>
    intro d _
    simp [countItems]
  | succ f ih =>
    intro d hd
    cases d with
    | nil => simp [hasEmptyEntry] at hd
    | cons kv rest =>
      obtain ⟨k, v⟩ := kv
      cases v with
      | str s =>
        simp only [hasEmptyEntry] at hd
        simp only [countItems]
        rw [ih rest hd]
      | obj m =>
        simp only [hasEmptyEntry, Bool.or_eq_true] at hd
        by_cases he : m.isEmpty
        · have hsub : (if m.isEmpty then root else m) = root := by simp [he]
          simp only [countItems]
          rw [hsub, ih root hroot]
        · have hsub : (if m.isEmpty then root else m) = m := by simp [he]
          rcases hd with (hm | hm) | hrest
          · simp [he] at hm
          · simp only [countItems]
            rw [hsub, ih m hm]
          · simp only [countItems]
            rw [hsub]
            cases hm2 : countItems root f m with
            | none => rfl
            | some nm =>
              dsimp only
              rw [ih rest hrest]

theorem translateItems_none_of_hasEmpty (tr : Translator) (root : List (String × Json))
    (hroot : hasEmptyEntry root = true) :
    ∀ f d st, hasEmptyEntry d = true → translateItems tr root f d st = none := by
  intro f
  induction f with
  | zero =>
    intro d st _
    simp [translateItems]
  | succ f ih =>
    intro d st hd
    cases d with
    | nil => simp [hasEmptyEntry] at hd
    | cons kv rest =>
      obtain ⟨k, v⟩ := kv
      cases v with
      | str s =>
        simp only [hasEmptyEntry] at hd
        simp only [translateItems]
        rw [ih rest _ hd]
      | obj m =>
        simp only [hasEmptyEntry, Bool.or_eq_true] at hd
        by_cases he : m.isEmpty
        · have hsub : (if m.isEmpty then root else m) = root := by simp [he]
          simp only [translateItems]
          rw [hsub, ih root st hroot]
        · have hsub : (if m.isEmpty then root else m) = m := by simp [he]
          rcases hd with (hm | hm) | hrest
          · simp [he] at hm
          · simp only [translateItems]
            rw [hsub, ih m st hm]
          · simp only [translateItems]
            rw [hsub]
            cases hm2 : translateItems tr root f m st with
            | none => rfl
            | some p =>
              obtain ⟨m', st₁⟩ := p
              dsimp only
              rw [ih rest st₁ hrest]

theorem translateItems_shape (tr : Translator) (root : List (String × Json)) :
    ∀ f d st res st', hasEmptyEntry d = false →
      translateItems tr root f d st = some (res, st') →
      shapeEntries res = shapeEntries d := by
  intro f
  induction f with
  | zero =>
    intro d st res st' _ h
    simp [translateItems] at h
  | succ f ih =>
    intro d st res st' hd h
    cases d with
    | nil =>
      simp only [translateItems, Option.some.injEq, Prod.mk.injEq] at h
      rw [← h.1]
    | cons kv rest =>
      obtain ⟨k, v⟩ := kv
      cases v with
      | str s =>
        simp only [hasEmptyEntry] at hd
        simp only [translateItems] at h
        cases hrest : translateItems tr root f rest (bumpProgress (translateAndHandle tr s st).2) with
        | none => rw [hrest] at h; simp at h
        | some p =>
          obtain ⟨rest', st₂⟩ := p
          rw [hrest] at h
          simp only [Option.some.injEq, Prod.mk.injEq] at h
          rw [← h.1]
          simp only [shapeEntries, Json.shape]
          exact congrArg (List.cons (k, Json.str "")) (ih rest _ rest' st₂ hd hrest)
      | obj m =>
        simp only [hasEmptyEntry, Bool.or_eq_false_iff] at hd
        obtain ⟨⟨hne, hm⟩, hrest⟩ := hd
        have hsub : (if m.isEmpty then root else m) = m := by simp [hne]
        simp only [translateItems, hsub] at h
        cases hm1 : translateItems tr root f m st with
        | none => rw [hm1] at h; simp at h
        | some p =>
          obtain ⟨m', st₁⟩ := p
          rw [hm1] at h
          dsimp only at h
          cases hr1 : translateItems tr root f rest st₁ with
          | none => rw [hr1] at h; simp at h
          | some q =>
            obtain ⟨rest', st₂⟩ := q
            rw [hr1] at h
            simp only [Option.some.injEq, Prod.mk.injEq] at h
            rw [← h.1]
            simp only [shapeEntries, Json.shape]
            rw [ih m st m' st₁ hm hm1, ih rest st₁ rest' st₂ hrest hr1]

end Polyglot

namespace Polyglot

theorem poTranslateContent_keys (tr : Translator) :
    ∀ (c : List (String × POVal)) (st : TrState),
      ((poTranslateContent tr c st).1).map Prod.fst = c.map Prod.fst := by
  intro c
  induction c with
  | nil =>
    intro st
    simp [poTranslateContent]
  | cons kv rest ih =>
    intro st
    obtain ⟨k, v⟩ := kv
    simp [poTranslateContent, ih]

theorem poTranslateContent_length (tr : Translator) (c : List (String × POVal)) (st : TrState) :
    ((poTranslateContent tr c st).1).length = c.length := by
  have h := poTranslateContent_keys tr c st
  have := congrArg List.length h
  simpa using this

theorem poTranslateContent_mem (tr : Translator) :
    ∀ (c : List (String × POVal)) (st : TrState) (kv : String × POVal),
      kv ∈ (poTranslateContent tr c st).1 →
      ∃ v, (kv.1, v) ∈ c ∧ kv.2.occurrences = v.occurrences := by
  intro c
  induction c with
  | nil =>
    intro st kv h
    simp [poTranslateContent] at h
  | cons kv0 rest ih =>
    intro st kv h
    obtain ⟨k, v⟩ := kv0
    simp only [poTranslateContent, List.mem_cons] at h
    rcases h with h | h
    · refine ⟨v, by simp [h], ?_⟩
      rw [h]
    · obtain ⟨v', hv', hocc⟩ := ih _ kv h
      exact ⟨v', by simp [hv'], hocc⟩

theorem poTranslateContent_submissions (tr : Translator) :
    ∀ (c : List (String × POVal)) (st : TrState),
      (poTranslateContent tr c st).2.2 = c.map fun kv => kv.2.msgstr := by
  intro c
  induction c with
  | nil =>
    intro st
    simp [poTranslateContent]
  | cons kv rest ih =>
    intro st
    obtain ⟨k, v⟩ := kv
    simp [poTranslateContent, ih]

theorem dictInsert_keys_mem (k : String) (v : POVal) :
    ∀ (c : List (String × POVal)) (m : String),
      m ∈ (dictInsert k v c).map Prod.fst ↔ m = k ∨ m ∈ c.map Prod.fst := by
  intro c
  induction c with
  | nil =>
    intro m
    simp [dictInsert]
  | cons kv rest ih =>
    intro m
    obtain ⟨k', v'⟩ := kv
    by_cases h : k' = k
    · subst h
      simp [dictInsert]
    · simp [dictInsert, h, ih]
      tauto

theorem dictInsert_mem (k : String) (v : POVal) :
    ∀ (c : List (String × POVal)) (k' : String) (v' : POVal),
      (k', v') ∈ dictInsert k v c → (k' = k ∧ v' = v) ∨ (k', v') ∈ c := by
  intro c
  induction c with
  | nil =>
    intro k' v' h
    simp [dictInsert] at h
    exact Or.inl h
  | cons kv rest ih =>
    intro k' v' h
    obtain ⟨k0, v0⟩ := kv
    simp only [dictInsert] at h
    by_cases hk : k0 = k
    · rw [if_pos hk] at h
      rcases List.mem_cons.mp h with h1 | h1
      · rw [Prod.mk.injEq] at h1
        exact Or.inl ⟨hk ▸ h1.1, h1.2⟩
      · exact Or.inr (List.mem_cons_of_mem _ h1)
    · rw [if_neg hk] at h
      rcases List.mem_cons.mp h with h1 | h1
      · exact Or.inr (List.mem_cons.mpr (Or.inl h1))
      · rcases ih k' v' h1 with h2 | h2
        · exact Or.inl h2
        · exact Or.inr (List.mem_cons_of_mem _ h2)

theorem loadSourceContent_keys_mem :
    ∀ (l : List POEntry) (acc : List (String × POVal)) (m : String),
      m ∈ (loadSourceContent l acc).map Prod.fst ↔
        m ∈ acc.map Prod.fst ∨ m ∈ l.map POEntry.msgid := by
  intro l
  induction l with
  | nil =>
    intro acc m
    simp [loadSourceContent]
  | cons e rest ih =>
    intro acc m
    rw [loadSourceContent, ih, dictInsert_keys_mem]
    simp
    tauto

theorem loadSourceContent_mem :
    ∀ (l : List POEntry) (acc : List (String × POVal)) (k : String) (v : POVal),
      (k, v) ∈ loadSourceContent l acc →
        (k, v) ∈ acc ∨ ∃ e, e ∈ l ∧ e.msgid = k ∧ v = loadEntry e := by
  intro l
  induction l with
  | nil =>
    intro acc k v h
    rw [loadSourceContent] at h
    exact Or.inl h
  | cons e rest ih =>
    intro acc k v h
    rw [loadSourceContent] at h
    rcases ih _ k v h with hacc | ⟨e', he', hid, hv⟩
    · rcases dictInsert_mem e.msgid (loadEntry e) acc k v hacc with ⟨hk, hv⟩ | hmem
      · exact Or.inr ⟨e, by simp, hk.symm, hv⟩
      · exact Or.inl hmem
    · exact Or.inr ⟨e', by simp [he'], hid, hv⟩

end Polyglot

namespace Polyglot

/-- C1: for every JSON source document, the leaf count computed up front by
JSONManager.get_number_of_translations equals the number of progress-bar
updates performed by JSONManager.translate_content during the translation
pass — whenever both walks terminate, at whatever fuel each is given. -/
theorem json_count_eq_progress_updates (tr : Translator) (root : List (String × Json))
    (f₁ f₂ n : Nat) (res : List (String × Json)) (st' : TrState)
    (hc : getNumberOfTranslations root f₁ = some n)
    (ht : translateContent tr root f₂ initState = some (res, st')) :
    st'.progressUpdates = n := by
  rw [getNumberOfTranslations] at hc
  rw [translateContent] at ht
  cases hc2 : countItems root f₂ root with
  | none =>
    rw [countItems_none_translateItems tr root f₂ root initState hc2] at ht
    exact Option.noConfusion ht
  | some m =>
    obtain ⟨res2, st2, hts, hup, _⟩ :=
      countItems_some_translateItems tr root f₂ root initState m hc2
    have h12 := hts.symm.trans ht
    simp only [Option.some.injEq, Prod.mk.injEq] at h12
    have hnm : n = m := by
      rcases Nat.le_total f₁ f₂ with hle | hle
      · have hmono := countItems_mono root f₁ f₂ root n hc hle
        rw [hc2] at hmono
        exact (Option.some.inj hmono).symm
      · have hmono := countItems_mono root f₂ f₁ root m hc2 hle
        rw [hc] at hmono
        exact Option.some.inj hmono
    rw [← h12.2, hup]
    simp only [initState]
    omega

/-- Witness for C1 at the concrete document `wRoot`: the up-front count is 2
and the translation pass performs 2 progress updates. -/
theorem json_count_eq_progress_updates_witness : wSt.progressUpdates = 2 :=
  json_count_eq_progress_updates wTr wRoot 10 12 2 wRes wSt rfl rfl

end Polyglot

namespace Polyglot

/-- C2: a successful JSON run writes exactly one file — the 2-space-indented
JSON dump of the translated tree — and the translated tree has the same key
set and nesting structure as the input at every level; only leaf
(non-mapping) values may differ. -/
theorem json_run_preserves_structure (fs : FileSystem) (tr : Translator)
    (parse : String → Option (List (String × Json)))
    (lang src outDir : String) (fuel : Nat) (m : ManagerState)
    (root res : List (String × Json)) (st' : TrState)
    (hm : managerInit fs lang src outDir = Outcome.ok m)
    (hp : parse src = some root)
    (ht : translateContent tr root fuel initState = some (res, st')) :
    jsonRun fs tr parse lang src outDir fuel = Outcome.ok [(targetFile m, jsonDumps res)] ∧
    shapeEntries res = shapeEntries root := by
  constructor
  · have hc : ∃ nn, getNumberOfTranslations root fuel = some nn := by
      rw [getNumberOfTranslations]
      cases hc2 : countItems root fuel root with
      | none =>
        rw [translateContent] at ht
        rw [countItems_none_translateItems tr root fuel root initState hc2] at ht
        exact Option.noConfusion ht
      | some nn => exact ⟨nn, rfl⟩
    obtain ⟨nn, hcount⟩ := hc
    rw [jsonRun, hm]
    dsimp only
    rw [hp]
    dsimp only
    rw [hcount]
    dsimp only
    rw [ht]
  · rw [translateContent] at ht
    cases hemp : hasEmptyEntry root with
    | true =>
      rw [translateItems_none_of_hasEmpty tr root hemp fuel root initState hemp] at ht
      exact Option.noConfusion ht
    | false => exact translateItems_shape tr root fuel root initState res st' hemp ht

/-- Witness for C2: translating the concrete document `wRoot` writes the
indented dump of `wRes`, whose shape equals the shape of `wRoot`. -/
theorem json_run_preserves_structure_witness :
    jsonRun wFs wTr (fun _ => some wRoot) "IT" "b.json" "" 12 =
      Outcome.ok
        [(targetFile { sourceFile := "b.json", targetLang := "IT", outputDirectory := "/cwd" },
          jsonDumps wRes)] ∧
    shapeEntries wRes = shapeEntries wRoot :=
  json_run_preserves_structure wFs wTr (fun _ => some wRoot) "IT" "b.json" "" 12
    { sourceFile := "b.json", targetLang := "IT", outputDirectory := "/cwd" }
    wRoot wRes wSt rfl rfl rfl

/-- C9: for every JSON document containing a key whose value is an empty
object, the falsy-argument default of get_number_of_translations and
translate_content substitutes the full top-level content for the empty
mapping, so both walks re-enter the root unboundedly: neither terminates at
any fuel. -/
theorem json_empty_object_diverges (tr : Translator) (root : List (String × Json))
    (h : hasEmptyEntry root = true) :
    (∀ fuel, getNumberOfTranslations root fuel = none) ∧
    (∀ fuel st, translateContent tr root fuel st = none) := by
  constructor
  · intro fuel
    rw [getNumberOfTranslations]
    exact countItems_none_of_hasEmpty root h fuel root h
  · intro fuel st
    rw [translateContent]
    exact translateItems_none_of_hasEmpty tr root h fuel root st h

/-- Witness for C9 at the concrete document `wEmptyRoot`, which has an
empty-object value: the counting walk yields no result at fuel 7. -/
theorem json_empty_object_diverges_witness :
    hasEmptyEntry wEmptyRoot = true ∧ getNumberOfTranslations wEmptyRoot 7 = none :=
  ⟨by simp [wEmptyRoot, hasEmptyEntry],
   (json_empty_object_diverges wTr wEmptyRoot (by simp [wEmptyRoot, hasEmptyEntry])).1 7⟩

/-- C3 counterexample: for a whole-text-file unit the claim fails — with a
failing translation call, TextManager writes no output file at all, so the
output does not retain the original value of the unit. -/
theorem text_failed_translation_writes_nothing :
    textTranslateSourceFile wTrFail "hello" "/cwd/it.txt" = [] ∧
    textTranslateSourceFile wTrFail "hello" "/cwd/it.txt" ≠ [("/cwd/it.txt", "hello")] := by
  constructor
  · rfl
  · intro h
    exact absurd (congrArg List.length h) (by decide)

/-- C3 (amended): for JSON-leaf and PO-entry units, a falsy translation
result makes translate_and_handle return the original value and increment
the not-translated counter by exactly one; unit failures never abort the
batch — the JSON translation walk finishes exactly when the (translator-
independent) counting walk does, and the PO pass processes every entry. -/
theorem dict_unit_failure_keeps_original (tr : Translator) (s : String) (st : TrState)
    (h : optFalsy (tr s) = true) :
    translateAndHandle tr s st =
      (s, { st with notTranslatedCount := st.notTranslatedCount + 1 }) ∧
    (∀ f root d st₁, (translateItems tr root f d st₁).isSome = (countItems root f d).isSome) ∧
    (∀ c st₁, ((poTranslateContent tr c st₁).1).length = c.length) := by
  refine ⟨?_, ?_, ?_⟩
  · simp [translateAndHandle, h]
  · intro f root d st₁
    exact translateItems_isSome_eq_countItems tr root f d st₁
  · intro c st₁
    exact poTranslateContent_length tr c st₁

/-- Witness for the amended C3: the failing translator leaves the unit
unchanged and bumps only the not-translated counter. -/
theorem dict_unit_failure_keeps_original_witness :
    translateAndHandle wTrFail "hello" initState =
      ("hello", { notTranslatedCount := 1, completionCount := 0, progressUpdates := 0 }) :=
  (dict_unit_failure_keeps_original wTrFail "hello" initState rfl).1

end Polyglot

namespace Polyglot

theorem poMakeTranslatedFiles_msgids (c : List (String × POVal)) :
    (poMakeTranslatedFiles c).map POEntry.msgid = c.map Prod.fst := by
  induction c with
  | nil => rfl
  | cons kv rest ih =>
    simp only [poMakeTranslatedFiles, List.map_cons] at ih ⊢
    rw [ih]

/-- C4: the PO output catalog carries exactly the message ids of the input
catalog, and every output entry carries, unchanged, the occurrences list of
an input entry with that same message id. -/
theorem po_output_msgids_occurrences (tr : Translator) (entries : List POEntry) :
    (∀ m, m ∈ (poPipeline tr entries).map POEntry.msgid ↔ m ∈ entries.map POEntry.msgid) ∧
    (∀ e, e ∈ poPipeline tr entries →
      ∃ e', e' ∈ entries ∧ e'.msgid = e.msgid ∧ e.occurrences = e'.occurrences) := by
  have hkeys : (poPipeline tr entries).map POEntry.msgid
      = (loadSourceContent entries []).map Prod.fst := by
    rw [poPipeline, poMakeTranslatedFiles_msgids, poTranslateContent_keys]
  constructor
  · intro m
    rw [hkeys]
    have h := loadSourceContent_keys_mem entries [] m
    simpa using h
  · intro e he
    rw [poPipeline] at he
    simp only [poMakeTranslatedFiles, List.mem_map] at he
    obtain ⟨kv, hkv, hemk⟩ := he
    obtain ⟨v, hvmem, hocc⟩ := poTranslateContent_mem tr (loadSourceContent entries [])
      initState kv hkv
    rcases loadSourceContent_mem entries [] kv.1 v hvmem with habs | ⟨e', he', hid, hv⟩
    · simp at habs
    · refine ⟨e', he', ?_, ?_⟩
      · rw [← hemk]
        exact hid
      · rw [← hemk]
        simp only
        rw [hocc, hv]
        rfl

/-- Witness for C4 at a one-entry catalog: the output's message-id list has
the same membership as the input's. -/
theorem po_output_msgids_occurrences_witness :
    "Hello" ∈ (poPipeline wTr [wEntry]).map POEntry.msgid ↔
      "Hello" ∈ [wEntry].map POEntry.msgid :=
  (po_output_msgids_occurrences wTr [wEntry]).1 "Hello"

/-- C7: every loaded PO content record stores the entry's msgid when its
msgstr is empty and the msgstr otherwise, and the strings submitted for
translation are exactly these stored values, in order. -/
theorem po_load_defaults_and_submits (tr : Translator) (entries : List POEntry) :
    (∀ k v, (k, v) ∈ loadSourceContent entries [] →
      ∃ e, e ∈ entries ∧ e.msgid = k ∧
        v.msgstr = (if e.msgstr = "" then e.msgid else e.msgstr)) ∧
    (poTranslateContent tr (loadSourceContent entries []) initState).2.2 =
      (loadSourceContent entries []).map fun kv => kv.2.msgstr := by
  constructor
  · intro k v hmem
    rcases loadSourceContent_mem entries [] k v hmem with habs | ⟨e, he, hid, hv⟩
    · simp at habs
    · exact ⟨e, he, hid, by rw [hv]; rfl⟩
  · exact poTranslateContent_submissions tr _ initState

/-- Witness for C7 at a one-entry catalog with an empty msgstr: the
submitted strings are exactly the loaded message strings. -/
theorem po_load_defaults_and_submits_witness :
    (poTranslateContent wTr (loadSourceContent [wEntry] []) initState).2.2 =
      (loadSourceContent [wEntry] []).map (fun kv => kv.2.msgstr) ∧
    (loadEntry wEntry).msgstr = "Hello" :=
  ⟨(po_load_defaults_and_submits wTr [wEntry]).2, rfl⟩

/-- C5: the resolved output path is the resolved output directory, a slash,
the lowercased target language and the source file's extension; the output
directory falls back to the current working directory exactly when the
argument is empty or not an existing directory. -/
theorem target_file_path_formula (fs : FileSystem) (lang src outDir : String)
    (m : ManagerState) (h : managerInit fs lang src outDir = Outcome.ok m) :
    targetFile m = resolveOutputDirectory fs outDir ++ "/" ++ lang.toLower ++ splitextExtension src ∧
    (outDir = "" ∨ fs.isDir outDir = false →
      targetFile m = fs.cwd ++ "/" ++ lang.toLower ++ splitextExtension src) ∧
    (outDir ≠ "" → fs.isDir outDir = true →
      targetFile m = outDir ++ "/" ++ lang.toLower ++ splitextExtension src) := by
  rw [managerInit] at h
  by_cases hex : fs.pathExists src
  · rw [if_pos hex] at h
    have hm : m = { sourceFile := src, targetLang := lang,
                    outputDirectory := resolveOutputDirectory fs outDir } := by
      cases h
      rfl
    subst hm
    refine ⟨rfl, ?_, ?_⟩
    · intro hcase
      have hres : resolveOutputDirectory fs outDir = fs.cwd := by
        rw [resolveOutputDirectory]
        rcases hcase with rfl | hdir
        · simp
        · simp [hdir]
      simp [targetFile, managerExtension, hres]
    · intro hne hdir
      have hres : resolveOutputDirectory fs outDir = outDir := by
        rw [resolveOutputDirectory, if_pos ⟨hne, hdir⟩]
      simp [targetFile, managerExtension, hres]
  · rw [if_neg hex] at h
    exact Outcome.noConfusion h

/-- Witness for C5: with an empty output-directory argument the path is
cwd/it + the .json extension of the source. -/
theorem target_file_path_formula_witness :
    targetFile { sourceFile := "dir/file.json", targetLang := "IT", outputDirectory := "/cwd" } =
      resolveOutputDirectory wFs "" ++ "/" ++ "IT".toLower ++ splitextExtension "dir/file.json" :=
  (target_file_path_formula wFs "IT" "dir/file.json" ""
    { sourceFile := "dir/file.json", targetLang := "IT", outputDirectory := "/cwd" } rfl).1

/-- C6: the dispatch maps .json to the JSON manager and .po to the PO
manager, but any other extension selects the name BaseManager — a name
imported by the entry point yet not defined in the managers module (which
defines TextManager instead), so the claimed selection of the Text manager
cannot happen. -/
theorem dispatch_selects_undefined_base_manager :
    selectManagerClass "notes.txt" = "BaseManager" ∧
    selectManagerClass "x.json" = "JSONManager" ∧
    selectManagerClass "x.po" = "POManager" ∧
    mainManagerImports.contains "BaseManager" = true ∧
    managersModuleExports.contains "BaseManager" = false ∧
    managersModuleExports.contains "TextManager" = true := by
  refine ⟨by decide, by decide, by decide, by decide, by decide, by decide⟩

/-- C8: when the source file does not exist, every manager exits through
os._exit(0) during construction — before any load, translation or write —
and the run produces no output file. -/
theorem missing_source_exits_during_init (fs : FileSystem) (tr : Translator)
    (readFile : String → Option String) (parse : String → Option (List (String × Json)))
    (parseCatalog : String → Option (List POEntry))
    (lang src outDir : String) (fuel : Nat)
    (h : fs.pathExists src = false) :
    managerInit fs lang src outDir = Outcome.exited 0 ∧
    textRun fs tr readFile lang src outDir = Outcome.exited 0 ∧
    jsonRun fs tr parse lang src outDir fuel = Outcome.exited 0 ∧
    poRun fs tr parseCatalog lang src outDir = Outcome.exited 0 := by
  have hinit : managerInit fs lang src outDir = Outcome.exited 0 := by
    rw [managerInit, if_neg (by simp [h])]
  refine ⟨hinit, ?_, ?_, ?_⟩
  · rw [textRun, hinit]
  · rw [jsonRun, hinit]
  · rw [poRun, hinit]

/-- Witness for C8 on a filesystem where nothing exists: all three runs exit
with status 0 and write nothing. -/
theorem missing_source_exits_during_init_witness :
    managerInit wFsMissing "IT" "missing.txt" "" = Outcome.exited 0 ∧
    textRun wFsMissing wTr (fun _ => some "contents") "IT" "missing.txt" "" = Outcome.exited 0 ∧
    jsonRun wFsMissing wTr (fun _ => some wRoot) "IT" "missing.txt" "" 10 = Outcome.exited 0 ∧
    poRun wFsMissing wTr (fun _ => some [wEntry]) "IT" "missing.txt" "" = Outcome.exited 0 :=
  missing_source_exits_during_init wFsMissing wTr (fun _ => some "contents")
    (fun _ => some wRoot) (fun _ => some [wEntry]) "IT" "missing.txt" "" 10 rfl

/-- C10: the three fatal user-facing conditions — no action selected,
missing source file, unreadable source content in the text manager — all
terminate through os._exit(0), so the process exit status is 0. -/
theorem fatal_conditions_exit_zero (fs : FileSystem) (tr : Translator)
    (readFile : String → Option String) (lang src outDir : String) :
    mainCheckAction "" = Outcome.exited 0 ∧
    (fs.pathExists src = false → managerInit fs lang src outDir = Outcome.exited 0) ∧
    (fs.pathExists src = true → readFile src = none →
      textRun fs tr readFile lang src outDir = Outcome.exited 0) := by
  refine ⟨rfl, ?_, ?_⟩
  · intro h
    rw [managerInit, if_neg (by simp [h])]
  · intro hex hread
    have hinit : managerInit fs lang src outDir = Outcome.ok
        { sourceFile := src, targetLang := lang,
          outputDirectory := resolveOutputDirectory fs outDir } := by
      rw [managerInit, if_pos (by simp [hex])]
    rw [textRun, hinit]
    dsimp only
    rw [hread]

/-- Witness for C10: each of the three conditions, instantiated concretely,
exits with code 0. -/
theorem fatal_conditions_exit_zero_witness :
    mainCheckAction "" = Outcome.exited 0 ∧
    managerInit wFsMissing "IT" "gone.txt" "" = Outcome.exited 0 ∧
    textRun wFs wTr (fun _ => none) "IT" "file.xyz" "" = Outcome.exited 0 :=
  ⟨(fatal_conditions_exit_zero wFs wTr (fun _ => none) "IT" "file.xyz" "").1,
   (fatal_conditions_exit_zero wFsMissing wTr (fun _ => none) "IT" "gone.txt" "").2.1 rfl,
   (fatal_conditions_exit_zero wFs wTr (fun _ => none) "IT" "file.xyz" "").2.2 rfl rfl⟩

end Polyglot
